import Mathlib

/-!
Verification of the druid scene-graph core: the `Widget` spatial layer
(`contains`, `widget_at`, the older `get_widget_at`) and the `Object`/`Widget`
ownership layer (`add_child`, `add_widget`, `remove`, the widget-child cache).

Coordinates are embedded as integers: the source stores `glm::vec2` (float)
components, but every operation verified here uses only addition and order
comparisons, which the embedding mirrors over an ordered ring; all concrete
inputs appearing in the source's tests are integral.

Non-widget `Object` children are invisible to both hit-test traversals (the
cached list holds only widgets; the older implementation skips children whose
dynamic cast to `Widget` fails without descending into them), so the geometric
tree type below carries widget children only.
-/

namespace Druid

/-- A 2-D vector, embedding `glm::vec2`. -/
structure Vec2 where
  x : Int
  y : Int
deriving DecidableEq, Repr

/-- A widget tree: name (`Object::name_`), bounding-box position and size
(`Widget::position_`, `Widget::size_`), and the ordered widget children. -/
inductive Widget : Type where
  | node : String → Vec2 → Vec2 → List Widget → Widget

/-- `Object::get_name`. -/
def Widget.name : Widget → String
  | .node nm _ _ _ => nm

/-- `Widget::get_position`. -/
def Widget.position : Widget → Vec2
  | .node _ pos _ _ => pos

/-- `Widget::get_size`. -/
def Widget.size : Widget → Vec2
  | .node _ _ sz _ => sz

/-- The widget children of a node, in insertion order. -/
def Widget.children : Widget → List Widget
  | .node _ _ _ cs => cs

/-- `Widget::contains` on raw bounding-box data: closed AABB test
`point.x >= position_.x && point.x <= position_.x + size_.x &&
 point.y >= position_.y && point.y <= position_.y + size_.y`. -/
def containsB (pos sz p : Vec2) : Bool :=
  decide (pos.x ≤ p.x) && decide (p.x ≤ pos.x + sz.x) &&
  decide (pos.y ≤ p.y) && decide (p.y ≤ pos.y + sz.y)

/-- `Widget::contains`. -/
def Widget.contains (w : Widget) (p : Vec2) : Bool :=
  containsB w.position w.size p

mutual

/-- `Widget::widget_at` (current implementation, cached child list):
early-exit when the point is outside this widget, otherwise scan
`children_widget_` in reverse insertion order for the first non-null
recursive result, and fall back to `this`. -/
def widget_at : Widget → Vec2 → Option Widget
  | .node nm pos sz cs, p =>
    if containsB pos sz p then
      match widget_at_go cs p with
      | some found => some found
      | none => some (.node nm pos sz cs)
    else
      none

/-- The child-scan loop of `widget_at`: the source iterates
`std::views::reverse(children_widget_)`, so the scan recurses on the tail
(the later-added children) before trying the head. -/
def widget_at_go : List Widget → Vec2 → Option Widget
  | [], _ => none
  | c :: rest, p =>
    match widget_at_go rest p with
    | some found => some found
    | none => widget_at c p

end

mutual

/-- `Widget::get_widget_at` (older implementation): scan `children()` from the
last index downwards, recursing into each child that casts to `Widget`; only
when no child yields a result test this widget's own bounds. -/
def get_widget_at : Widget → Vec2 → Option Widget
  | .node nm pos sz cs, p =>
    match get_widget_at_go cs p with
    | some found => some found
    | none =>
      if containsB pos sz p then
        some (.node nm pos sz cs)
      else
        none

/-- The index loop of `get_widget_at`: `children[size-1]` down to
`children[0]`, so the scan recurses on the tail before trying the head. -/
def get_widget_at_go : List Widget → Vec2 → Option Widget
  | [], _ => none
  | c :: rest, p =>
    match get_widget_at_go rest p with
    | some found => some found
    | none => get_widget_at c p

end

/-- The four coordinate inequalities stating that the box `(cpos, csz)` lies
inside the box `(pos, sz)`. Used to state the bounds-nesting assumption under
which the two hit-test implementations agree. -/
def boxInB (cpos csz pos sz : Vec2) : Bool :=
  decide (pos.x ≤ cpos.x) && decide (cpos.x + csz.x ≤ pos.x + sz.x) &&
  decide (pos.y ≤ cpos.y) && decide (cpos.y + csz.y ≤ pos.y + sz.y)

mutual

/-- A widget tree is bounds-nested when every child's box lies inside its
parent's box, recursively. The source's doc comments assume, but do not
enforce, this layout (descendants lie within the parent's bounds). -/
def nestedT : Widget → Bool
  | .node _ pos sz cs => nestedAll pos sz cs

/-- All members of `cs` are inside the box `(pos, sz)` and themselves nested. -/
def nestedAll (pos sz : Vec2) : List Widget → Bool
  | [] => true
  | c :: rest => boxInB c.position c.size pos sz && nestedT c && nestedAll pos sz rest

end

/- Example trees taken from the source's test suite. -/

/-- The grandchild of `TEST(Widget, get_widget_at_nested_children)`. -/
def grandchildW : Widget := .node "grandchild" ⟨150, 150⟩ ⟨50, 50⟩ []

/-- The middle child of `TEST(Widget, get_widget_at_nested_children)`. -/
def childNested : Widget := .node "child" ⟨100, 100⟩ ⟨200, 200⟩ [grandchildW]

/-- The parent of `TEST(Widget, get_widget_at_nested_children)`. -/
def parentNested : Widget := .node "parent" ⟨0, 0⟩ ⟨400, 400⟩ [childNested]

/-- First child of `TEST(Widget, get_widget_at_overlapping_children)`. -/
def child1W : Widget := .node "child1" ⟨100, 100⟩ ⟨150, 150⟩ []

/-- Second, later-added child of the overlapping-children test. -/
def child2W : Widget := .node "child2" ⟨150, 150⟩ ⟨150, 150⟩ []

/-- The parent of the overlapping-children test. -/
def parentOverlap : Widget := .node "parent" ⟨0, 0⟩ ⟨400, 400⟩ [child1W, child2W]

/-- A zero-size root holding a child whose box lies entirely outside the
root's box: the configuration on which the two hit-test implementations
disagree. -/
def strayChildTree : Widget := .node "r" ⟨0, 0⟩ ⟨0, 0⟩ [.node "c" ⟨10, 10⟩ ⟨10, 10⟩ []]

/-! The ownership layer. The `Object` implementation itself is not under
`src/` — only its tests and its `Widget` subclass are — so the `Object`
operations below are modelled from the spec, while the `Widget`-specific parts
(`add_widget`, the `on_child_removed` cache handler, the null check) are
translated from the source (`src/unnamed/part_004`). -/

/-- A non-owning reference to a child node as the parent sees it: its identity
(standing for the pointer) and whether a dynamic cast to `Widget` succeeds. -/
structure ChildRef where
  id : Nat
  isWidget : Bool
deriving DecidableEq, Repr

/-- The observable state of one `Widget` node: name, bounding box, the generic
`Object` child list (`children()`, insertion order) and the cached widget-child
pointer list (`children_widget_`). -/
structure WidgetState where
  name : String
  position : Vec2
  size : Vec2
  children : List ChildRef
  children_widget : List Nat
deriving DecidableEq, Repr

/-- `Widget::set_position`. -/
def set_position (s : WidgetState) (p : Vec2) : WidgetState :=
  { s with position := p }

/-- `Widget::get_position`. -/
def get_position (s : WidgetState) : Vec2 :=
  s.position

/-- `Widget::set_size`. -/
def set_size (s : WidgetState) (sz : Vec2) : WidgetState :=
  { s with size := sz }

/-- `Widget::get_size`. -/
def get_size (s : WidgetState) : Vec2 :=
  s.size

/-- Modelled from the spec (the `Object` implementation is not under `src/`):
`Object::add_child` appends the transferred child at the end of the child
sequence and fires `on_child_added`. The `Widget` constructor in the source
registers an `on_child_removed` observer only, so the widget cache is not
touched by the attach signal. -/
def add_child (s : WidgetState) (c : ChildRef) : WidgetState :=
  { s with children := s.children ++ [c] }

/-- `Widget::add_widget`: a null handle is absorbed as a no-op; otherwise the
raw pointer is appended to `children_widget_` and ownership is transferred to
the base class via `add_child`. -/
def add_widget (s : WidgetState) (h : Option Nat) : WidgetState :=
  match h with
  | none => s
  | some i => add_child { s with children_widget := s.children_widget ++ [i] } ⟨i, true⟩

/-- Modelled from the spec (the `Object` implementation is not under `src/`):
`remove()` called on the child with identity `i`, as observed by this parent.
If `i` is currently a child, `on_child_removed` fires first; the `Widget`
handler from the source erases the pointer from `children_widget_` when the
dynamic cast to `Widget` succeeds (`std::erase` drops every equal element);
then the child is detached from the child sequence. Otherwise nothing
changes at this parent. -/
def remove_child (s : WidgetState) (i : Nat) : WidgetState :=
  match s.children.find? (fun c => c.id == i) with
  | none => s
  | some c =>
      { s with
        children := s.children.eraseP (fun c2 => c2.id == i),
        children_widget :=
          if c.isWidget then s.children_widget.filter (fun j => j != i)
          else s.children_widget }

/-- The widget-cache invariant: `children_widget()` is exactly the subsequence
of `children()` whose elements are widget-typed, in the same relative order. -/
def cacheInv (s : WidgetState) : Prop :=
  s.children_widget = (s.children.filter (fun c => c.isWidget)).map (fun c => c.id)

/-- The states reachable from a freshly constructed widget by the public
mutation surface, attaching widget-typed children through `add_widget` only
(non-widget `Object` children may go through the base `add_child`), with
pointer identities fresh on attach. -/
inductive Reach : WidgetState → Prop where
  | init (nm : String) (pos sz : Vec2) : Reach ⟨nm, pos, sz, [], []⟩
  | add_widget_null {s} : Reach s → Reach (add_widget s none)
  | add_widget_some {s} (i : Nat) : Reach s → (∀ c ∈ s.children, c.id ≠ i) →
      Reach (add_widget s (some i))
  | add_object {s} (i : Nat) : Reach s → (∀ c ∈ s.children, c.id ≠ i) →
      Reach (add_child s ⟨i, false⟩)
  | remove {s} (i : Nat) : Reach s → Reach (remove_child s i)
  | set_pos {s} (p : Vec2) : Reach s → Reach (set_position s p)
  | set_sz {s} (q : Vec2) : Reach s → Reach (set_size s q)

/-- The state `Object::remove` touches, for a fixed subject node: its parent's
ordered child-id list and the node's own parent back-reference (`none` when
detached). -/
structure RemState where
  parentChildren : List Nat
  nodeParent : Option Nat
deriving DecidableEq, Repr

/-- The outcome of `Object::remove`: the post-state, the returned owned handle
(`some n` = exclusive ownership of node `n`, `none` = null handle), and the
`on_child_removed` firings, each recorded together with whether the node was
still present in the parent's child list at the moment the callback ran. -/
structure RemResult where
  state : RemState
  handle : Option Nat
  fired : List (Nat × Bool)
deriving DecidableEq, Repr

/-- Modelled from the spec (the `Object` implementation is not under `src/`;
only its tests are): `remove() -> owned handle | null`. With a parent, it
fires `on_child_removed` first, while the node is still attached, then
detaches the node and clears the parent back-reference, returning ownership;
without a parent it returns a null handle and performs no mutation. -/
def object_remove (n : Nat) (s : RemState) : RemResult :=
  match s.nodeParent with
  | none => ⟨s, none, []⟩
  | some _ =>
      ⟨⟨s.parentChildren.erase n, none⟩, some n,
        [(n, decide (n ∈ s.parentChildren))]⟩

/-- Well-formedness of a `RemState` for subject node `n`: the parent
back-reference is set exactly when the node is in the parent's child list, and
child identities (pointers) are pairwise distinct. -/
def remWF (n : Nat) (s : RemState) : Prop :=
  (s.nodeParent.isSome = true ↔ n ∈ s.parentChildren) ∧ s.parentChildren.Nodup

/-! Helper lemmas. -/

/-- Strong induction over widget trees: to prove `P` for a node it suffices to
have `P` for all members of its child list. -/
theorem Widget.ind_on (P : Widget → Prop)
    (h : ∀ nm pos sz cs, (∀ c ∈ cs, P c) → P (.node nm pos sz cs)) :
    ∀ w, P w := by
  have key : ∀ n w, sizeOf w ≤ n → P w := by
    intro n
    induction n with
    | zero =>
      intro w hw
      cases w with
      | node nm pos sz cs => simp [Widget.node.sizeOf_spec] at hw
    | succ n ih =>
      intro w hw
      cases w with
      | node nm pos sz cs =>
        apply h
        intro c hc
        apply ih
        have h1 := List.sizeOf_lt_of_mem hc
        have h2 := Widget.node.sizeOf_spec nm pos sz cs
        omega
  intro w
  exact key (sizeOf w) w le_rfl

theorem widget_at_go_cons (c : Widget) (rest : List Widget) (p : Vec2) :
    widget_at_go (c :: rest) p =
      match widget_at_go rest p with
      | some f => some f
      | none => widget_at c p := rfl

theorem widget_at_go_eq_none_iff (cs : List Widget) (p : Vec2) :
    widget_at_go cs p = none ↔ ∀ c ∈ cs, widget_at c p = none := by
  induction cs with
  | nil => simp [widget_at_go]
  | cons c rest ih =>
    cases hr : widget_at_go rest p with
    | some f =>
      simp only [widget_at_go, hr]
      constructor
      · intro h; exact absurd h (by simp)
      · intro h
        have : widget_at_go rest p = none := ih.mpr (fun c' hc' => h c' (by simp [hc']))
        rw [this] at hr; exact absurd hr (by simp)
    | none =>
      simp only [widget_at_go, hr]
      constructor
      · intro h
        intro c' hc'
        rcases List.mem_cons.mp hc' with h1 | h2
        · rw [h1]; exact h
        · exact (ih.mp hr) c' h2
      · intro h; exact h c (by simp)

theorem widget_at_go_mem (cs : List Widget) (p : Vec2) (f : Widget)
    (h : widget_at_go cs p = some f) : ∃ c ∈ cs, widget_at c p = some f := by
  induction cs with
  | nil => simp [widget_at_go] at h
  | cons c rest ih =>
    cases hr : widget_at_go rest p with
    | some g =>
      simp only [widget_at_go, hr] at h
      obtain ⟨c', hc', hw⟩ := ih (hr.trans (by rw [h]))
      exact ⟨c', by simp [hc'], hw⟩
    | none =>
      simp only [widget_at_go, hr] at h
      exact ⟨c, by simp, h⟩

theorem widget_at_go_append (xs ys : List Widget) (p : Vec2) :
    widget_at_go (xs ++ ys) p =
      match widget_at_go ys p with
      | some f => some f
      | none => widget_at_go xs p := by
  induction xs with
  | nil =>
    cases h : widget_at_go ys p <;> simp [widget_at_go, h]
  | cons x rest ih =>
    rw [List.cons_append, widget_at_go_cons, widget_at_go_cons, ih]
    cases h : widget_at_go ys p <;> cases hr : widget_at_go rest p <;> simp

theorem get_widget_at_go_eq_none_iff (cs : List Widget) (p : Vec2) :
    get_widget_at_go cs p = none ↔ ∀ c ∈ cs, get_widget_at c p = none := by
  induction cs with
  | nil => simp [get_widget_at_go]
  | cons c rest ih =>
    cases hr : get_widget_at_go rest p with
    | some f =>
      simp only [get_widget_at_go, hr]
      constructor
      · intro h; exact absurd h (by simp)
      · intro h
        have : get_widget_at_go rest p = none := ih.mpr (fun c' hc' => h c' (by simp [hc']))
        rw [this] at hr; exact absurd hr (by simp)
    | none =>
      simp only [get_widget_at_go, hr]
      constructor
      · intro h
        intro c' hc'
        rcases List.mem_cons.mp hc' with h1 | h2
        · rw [h1]; exact h
        · exact (ih.mp hr) c' h2
      · intro h; exact h c (by simp)

theorem get_widget_at_go_mem (cs : List Widget) (p : Vec2) (f : Widget)
    (h : get_widget_at_go cs p = some f) : ∃ c ∈ cs, get_widget_at c p = some f := by
  induction cs with
  | nil => simp [get_widget_at_go] at h
  | cons c rest ih =>
    cases hr : get_widget_at_go rest p with
    | some g =>
      simp only [get_widget_at_go, hr] at h
      obtain ⟨c', hc', hw⟩ := ih (hr.trans (by rw [h]))
      exact ⟨c', by simp [hc'], hw⟩
    | none =>
      simp only [get_widget_at_go, hr] at h
      exact ⟨c, by simp, h⟩

theorem widget_at_sizeOf_le : ∀ w : Widget, ∀ p f, widget_at w p = some f →
    sizeOf f ≤ sizeOf w := by
  apply Widget.ind_on (fun w => ∀ p f, widget_at w p = some f → sizeOf f ≤ sizeOf w)
  intro nm pos sz cs ih p f h
  by_cases hc : containsB pos sz p
  · simp only [widget_at, hc, if_true] at h
    cases hg : widget_at_go cs p with
    | some g =>
      rw [hg] at h
      obtain ⟨c, hcmem, hw⟩ := widget_at_go_mem cs p g hg
      have h1 := ih c hcmem p g hw
      have h2 := List.sizeOf_lt_of_mem hcmem
      have h3 := Widget.node.sizeOf_spec nm pos sz cs
      have hfg : g = f := Option.some.inj h
      subst hfg
      omega
    | none =>
      rw [hg] at h
      have : f = Widget.node nm pos sz cs := by injection h.symm
      rw [this]
  · simp [widget_at, hc] at h

theorem widget_at_sound : ∀ w : Widget, ∀ p f, widget_at w p = some f →
    f.contains p = true := by
  apply Widget.ind_on (fun w => ∀ p f, widget_at w p = some f → f.contains p = true)
  intro nm pos sz cs ih p f h
  by_cases hc : containsB pos sz p
  · simp only [widget_at, hc, if_true] at h
    cases hg : widget_at_go cs p with
    | some g =>
      rw [hg] at h
      obtain ⟨c, hcmem, hw⟩ := widget_at_go_mem cs p g hg
      have hfg : g = f := Option.some.inj h
      subst hfg
      exact ih c hcmem p g hw
    | none =>
      rw [hg] at h
      have hf : Widget.node nm pos sz cs = f := Option.some.inj h
      subst hf
      simpa [Widget.contains, Widget.position, Widget.size] using hc
  · simp [widget_at, hc] at h

theorem get_widget_at_sound : ∀ w : Widget, ∀ p f, get_widget_at w p = some f →
    f.contains p = true := by
  apply Widget.ind_on (fun w => ∀ p f, get_widget_at w p = some f → f.contains p = true)
  intro nm pos sz cs ih p f h
  cases hg : get_widget_at_go cs p with
  | some g =>
    simp only [get_widget_at, hg] at h
    obtain ⟨c, hcmem, hw⟩ := get_widget_at_go_mem cs p g hg
    have hfg : g = f := Option.some.inj h
    subst hfg
    exact ih c hcmem p g hw
  | none =>
    simp only [get_widget_at, hg] at h
    by_cases hc : containsB pos sz p
    · rw [if_pos hc] at h
      have hf : Widget.node nm pos sz cs = f := Option.some.inj h
      subst hf
      simpa [Widget.contains, Widget.position, Widget.size] using hc
    · rw [if_neg hc] at h
      exact absurd h (by simp)

theorem containsB_of_boxInB {cpos csz pos sz p : Vec2}
    (hb : boxInB cpos csz pos sz = true) (hc : containsB cpos csz p = true) :
    containsB pos sz p = true := by
  simp only [boxInB, containsB, Bool.and_eq_true, decide_eq_true_eq] at hb hc ⊢
  omega

theorem nestedAll_mem {pos sz : Vec2} {cs : List Widget} {c : Widget}
    (h : nestedAll pos sz cs = true) (hc : c ∈ cs) :
    boxInB c.position c.size pos sz = true ∧ nestedT c = true := by
  induction cs with
  | nil => simp at hc
  | cons x rest ih =>
    simp only [nestedAll, Bool.and_eq_true] at h
    rcases List.mem_cons.mp hc with h1 | h2
    · subst h1; exact ⟨h.1.1, h.1.2⟩
    · exact ih h.2 h2

theorem get_widget_at_outside_of_nested :
    ∀ w : Widget, ∀ p, nestedT w = true → w.contains p = false →
      get_widget_at w p = none := by
  apply Widget.ind_on
    (fun w => ∀ p, nestedT w = true → w.contains p = false → get_widget_at w p = none)
  intro nm pos sz cs ih p hn hout
  have hout' : containsB pos sz p = false := by
    simpa [Widget.contains, Widget.position, Widget.size] using hout
  have hall : nestedAll pos sz cs = true := by simpa [nestedT] using hn
  have hgo : get_widget_at_go cs p = none := by
    apply (get_widget_at_go_eq_none_iff cs p).mpr
    intro c hc
    obtain ⟨hbox, hnc⟩ := nestedAll_mem hall hc
    have hcc : c.contains p = false := by
      cases hcc : c.contains p
      · rfl
      · exact absurd (containsB_of_boxInB hbox
          (by simpa [Widget.contains] using hcc)) (by simp [hout'])
    exact ih c hc p hnc hcc
  simp [get_widget_at, hgo, hout']

theorem go_lists_eq {p : Vec2} {cs : List Widget}
    (h : ∀ c ∈ cs, widget_at c p = get_widget_at c p) :
    widget_at_go cs p = get_widget_at_go cs p := by
  induction cs with
  | nil => rfl
  | cons c rest ih =>
    have hrest : widget_at_go rest p = get_widget_at_go rest p :=
      ih (fun c' hc' => h c' (by simp [hc']))
    simp only [widget_at_go, get_widget_at_go, hrest, h c (by simp)]

theorem widget_at_eq_get_of_nested :
    ∀ w : Widget, nestedT w = true → ∀ p, widget_at w p = get_widget_at w p := by
  apply Widget.ind_on (fun w => nestedT w = true → ∀ p, widget_at w p = get_widget_at w p)
  intro nm pos sz cs ih hn p
  have hall : nestedAll pos sz cs = true := by simpa [nestedT] using hn
  have hgo : widget_at_go cs p = get_widget_at_go cs p :=
    go_lists_eq (fun c hc => ih c hc (nestedAll_mem hall hc).2 p)
  by_cases hc : containsB pos sz p
  · simp only [widget_at, get_widget_at, hc, if_true, hgo]
  · have hnone : get_widget_at (Widget.node nm pos sz cs) p = none :=
      get_widget_at_outside_of_nested (Widget.node nm pos sz cs) p hn
        (by simpa [Widget.contains, Widget.position, Widget.size] using hc)
    simp [widget_at, hc, hnone]

/-! Claim theorems: spatial layer. -/

/-- Claim C2, amended: for every widget and every point, if the point is not
contained in the widget's own bounding box, `widget_at` returns null — it
resolves to neither this widget nor any descendant, even a descendant whose
bounds contain the point but lie outside the parent's bounds. The older
`get_widget_at` does not share this early exit: it recurses into children
before testing its own bounds, so it can still return such a descendant. -/
theorem claim_C2 (w : Widget) (p : Vec2) (h : w.contains p = false) :
    widget_at w p = none := by
  cases w with
  | node nm pos sz cs =>
    simp only [Widget.contains, Widget.position, Widget.size] at h
    simp [widget_at, h]

/-- Witness for C2: the outside-miss test of the source — widget at
(100,100) with size (200,150), queried at (50,50). -/
theorem claim_C2_witness :
    widget_at (Widget.node "w" ⟨100, 100⟩ ⟨200, 150⟩ []) ⟨50, 50⟩ = none :=
  claim_C2 (Widget.node "w" ⟨100, 100⟩ ⟨200, 150⟩ []) ⟨50, 50⟩ (by decide)

/-- Counterexample to C2 as stated: on a zero-size root with a child at
(10,10)-(20,20), the point (15,15) is outside the root's own bounds, yet
`get_widget_at` resolves to the child rather than returning null. -/
theorem claim_C2_counterexample :
    strayChildTree.contains ⟨15, 15⟩ = false ∧
    (get_widget_at strayChildTree ⟨15, 15⟩).map Widget.name = some "c" :=
  ⟨rfl, rfl⟩

/-- Claim C3: hit-test depth priority. A widget containing the point always
yields some result; `widget_at` returns the queried widget itself exactly when
the widget contains the point and no child's recursive call yields a non-null
result; and on the nested test tree, querying (175,175) returns the
grandchild. -/
theorem claim_C3 :
    (∀ (w : Widget) (p : Vec2), w.contains p = true → (widget_at w p).isSome = true)
    ∧ (∀ (nm : String) (pos sz : Vec2) (cs : List Widget) (p : Vec2),
        widget_at (.node nm pos sz cs) p = some (.node nm pos sz cs)
          ↔ containsB pos sz p = true ∧ ∀ c ∈ cs, widget_at c p = none)
    ∧ (widget_at parentNested ⟨175, 175⟩).map Widget.name = some "grandchild" := by
  refine ⟨?_, ?_, rfl⟩
  · intro w p h
    cases w with
    | node nm pos sz cs =>
      simp only [Widget.contains, Widget.position, Widget.size] at h
      simp only [widget_at, h, if_true]
      cases widget_at_go cs p <;> simp
  · intro nm pos sz cs p
    constructor
    · intro h
      by_cases hc : containsB pos sz p
      · simp only [widget_at, hc, if_true] at h
        cases hg : widget_at_go cs p with
        | some g =>
          rw [hg] at h
          have hfg : g = Widget.node nm pos sz cs := Option.some.inj h
          obtain ⟨c, hcmem, hw⟩ := widget_at_go_mem cs p g hg
          have h1 := widget_at_sizeOf_le c p g hw
          have h2 := List.sizeOf_lt_of_mem hcmem
          have h3 := Widget.node.sizeOf_spec nm pos sz cs
          subst hfg
          omega
        | none =>
          rw [hg] at h
          exact ⟨hc, (widget_at_go_eq_none_iff cs p).mp hg⟩
      · simp [widget_at, hc] at h
    · rintro ⟨hc, hall⟩
      have hg : widget_at_go cs p = none := (widget_at_go_eq_none_iff cs p).mpr hall
      simp [widget_at, hc, hg]

/-- Witness for C3: a childless widget containing the queried point yields a
non-null result. -/
theorem claim_C3_witness :
    (widget_at (Widget.node "w" ⟨100, 100⟩ ⟨200, 150⟩ []) ⟨150, 150⟩).isSome = true :=
  claim_C3.1 (Widget.node "w" ⟨100, 100⟩ ⟨200, 150⟩ []) ⟨150, 150⟩ (by decide)

/-- Claim C4: hit-test sibling tie-break. If the queried widget contains the
point, one of its cached children recursively resolves to `f`, and every child
added after it resolves to null, then `widget_at` returns `f`: the scan runs
in reverse insertion order and keeps the first non-null result. -/
theorem claim_C4 (nm : String) (pos sz : Vec2) (cs1 cs2 : List Widget)
    (c : Widget) (p : Vec2) (f : Widget)
    (hcont : containsB pos sz p = true)
    (hc : widget_at c p = some f)
    (hlater : ∀ c2 ∈ cs2, widget_at c2 p = none) :
    widget_at (.node nm pos sz (cs1 ++ c :: cs2)) p = some f := by
  have h2 : widget_at_go cs2 p = none := (widget_at_go_eq_none_iff cs2 p).mpr hlater
  have hcons : widget_at_go (c :: cs2) p = some f := by
    rw [widget_at_go_cons, h2]
    exact hc
  have happ := widget_at_go_append cs1 (c :: cs2) p
  rw [hcons] at happ
  simp [widget_at, hcont, happ]

/-- Witness for C4: the overlapping-children test — child2 was added after
child1, both contain (175,175), and the query returns child2. -/
theorem claim_C4_witness :
    widget_at (Widget.node "parent" ⟨0, 0⟩ ⟨400, 400⟩ ([child1W] ++ child2W :: []))
      ⟨175, 175⟩ = some child2W :=
  claim_C4 "parent" ⟨0, 0⟩ ⟨400, 400⟩ [child1W] [] child2W ⟨175, 175⟩ child2W
    (by decide) rfl (by simp)

/-- Claim C5: containment is a closed interval on all four edges; the concrete
evaluations of the source's tests hold; and a zero-size widget contains
exactly its single corner point. -/
theorem claim_C5 :
    (∀ (w : Widget) (p : Vec2), w.contains p = true ↔
        (w.position.x ≤ p.x ∧ p.x ≤ w.position.x + w.size.x ∧
         w.position.y ≤ p.y ∧ p.y ≤ w.position.y + w.size.y))
    ∧ ((Widget.node "w" ⟨100, 100⟩ ⟨200, 150⟩ []).contains ⟨100, 100⟩ = true
      ∧ (Widget.node "w" ⟨100, 100⟩ ⟨200, 150⟩ []).contains ⟨300, 250⟩ = true
      ∧ (Widget.node "w" ⟨100, 100⟩ ⟨200, 150⟩ []).contains ⟨200, 175⟩ = true
      ∧ (Widget.node "w" ⟨100, 100⟩ ⟨200, 150⟩ []).contains ⟨99, 99⟩ = false
      ∧ (Widget.node "w" ⟨100, 100⟩ ⟨200, 150⟩ []).contains ⟨301, 251⟩ = false)
    ∧ (∀ (nm : String) (pos : Vec2) (cs : List Widget) (p : Vec2),
        (Widget.node nm pos ⟨0, 0⟩ cs).contains p = true ↔ p = pos) := by
  refine ⟨?_, by decide, ?_⟩
  · intro w p
    simp [Widget.contains, containsB, Bool.and_eq_true, decide_eq_true_eq, and_assoc]
  · intro nm pos cs p
    cases p with
    | mk px py =>
      cases pos with
      | mk ax ay =>
        simp only [Widget.contains, containsB, Widget.position, Widget.size,
          Bool.and_eq_true, decide_eq_true_eq, Vec2.mk.injEq]
        omega

/-- Claim C9, amended: on every bounds-nested widget tree (each child's box
inside its parent's box, recursively — the layout the source's documentation
assumes), the cached-reverse-scan `widget_at` and the older
dynamic-cast-per-query `get_widget_at` return the same widget-or-null result.
Without that assumption they disagree (see the counterexample). -/
theorem claim_C9 (w : Widget) (p : Vec2) (h : nestedT w = true) :
    widget_at w p = get_widget_at w p :=
  widget_at_eq_get_of_nested w h p

/-- Witness for C9: the nested test tree, queried at (175,175). -/
theorem claim_C9_witness :
    widget_at parentNested ⟨175, 175⟩ = get_widget_at parentNested ⟨175, 175⟩ :=
  claim_C9 parentNested ⟨175, 175⟩ (by decide)

/-- Counterexample to C9 as stated: on a zero-size root with a child at
(10,10)-(20,20) and the query point (15,15), `widget_at` early-exits to null
while `get_widget_at` returns the child, so the two implementations differ. -/
theorem claim_C9_counterexample :
    widget_at strayChildTree ⟨15, 15⟩ = none ∧
    (get_widget_at strayChildTree ⟨15, 15⟩).isSome = true ∧
    widget_at strayChildTree ⟨15, 15⟩ ≠ get_widget_at strayChildTree ⟨15, 15⟩ := by
  refine ⟨rfl, rfl, ?_⟩
  intro h
  have h2 : (get_widget_at strayChildTree ⟨15, 15⟩).isSome = true := rfl
  rw [← h] at h2
  rw [show widget_at strayChildTree ⟨15, 15⟩ = none from rfl] at h2
  simp at h2

/-- Claim C10: hit-test result soundness — whenever `widget_at` or
`get_widget_at` returns a non-null widget, that widget's own bounding box
contains the queried point. -/
theorem claim_C10 : ∀ (w : Widget) (p : Vec2) (f : Widget),
    (widget_at w p = some f → f.contains p = true)
    ∧ (get_widget_at w p = some f → f.contains p = true) :=
  fun w p f => ⟨widget_at_sound w p f, get_widget_at_sound w p f⟩

/-- Witness for C10: `widget_at` on the nested test tree resolves to the
grandchild, which contains the point; `get_widget_at` on the stray-child tree
resolves to the stray child, which contains the point. -/
theorem claim_C10_witness :
    grandchildW.contains ⟨175, 175⟩ = true ∧
    (Widget.node "c" ⟨10, 10⟩ ⟨10, 10⟩ []).contains ⟨15, 15⟩ = true :=
  ⟨(claim_C10 parentNested ⟨175, 175⟩ grandchildW).1 rfl,
   (claim_C10 strayChildTree ⟨15, 15⟩ (Widget.node "c" ⟨10, 10⟩ ⟨10, 10⟩ [])).2 rfl⟩

/-! Helper lemmas: ownership layer. -/

theorem filter_bne_of_not_mem {i : Nat} {l : List Nat} (h : i ∉ l) :
    l.filter (fun j => j != i) = l := by
  apply List.filter_eq_self.mpr
  intro j hj
  simp only [bne_iff_ne, ne_eq]
  rintro rfl
  exact h hj

theorem not_mem_widget_ids {i : Nat} {l : List ChildRef}
    (h : i ∉ l.map (fun c => c.id)) :
    i ∉ (l.filter (fun c => c.isWidget)).map (fun c => c.id) := by
  intro hmem
  obtain ⟨c, hc, hid⟩ := List.mem_map.mp hmem
  exact h (List.mem_map.mpr ⟨c, (List.mem_filter.mp hc).1, hid⟩)

theorem eraseP_filter_map (i : Nat) : ∀ l : List ChildRef,
    (l.map (fun c => c.id)).Nodup →
    ((l.eraseP (fun c => c.id == i)).filter (fun c => c.isWidget)).map (fun c => c.id)
      = ((l.filter (fun c => c.isWidget)).map (fun c => c.id)).filter (fun j => j != i) := by
  intro l hnd
  induction l with
  | nil => rfl
  | cons c rest ih =>
    simp only [List.map_cons, List.nodup_cons] at hnd
    obtain ⟨hcnot, hndrest⟩ := hnd
    by_cases hci : c.id = i
    · have hci2 : (c.id == i) = true := by simp [hci]
      have he : List.eraseP (fun c2 => c2.id == i) (c :: rest) = rest := by
        simp [List.eraseP_cons, hci2]
      rw [he]
      have hirest : i ∉ (rest.filter (fun c => c.isWidget)).map (fun c => c.id) :=
        not_mem_widget_ids (hci ▸ hcnot)
      by_cases hcw : c.isWidget = true
      · have hf : List.filter (fun c2 => c2.isWidget) (c :: rest)
            = c :: List.filter (fun c2 => c2.isWidget) rest := by
          simp [List.filter_cons, hcw]
        have hci3 : (c.id != i) = false := by simp [hci]
        rw [hf, List.map_cons]
        simp only [List.filter_cons, hci3, Bool.false_eq_true, if_false]
        exact (filter_bne_of_not_mem hirest).symm
      · have hf : List.filter (fun c2 => c2.isWidget) (c :: rest)
            = List.filter (fun c2 => c2.isWidget) rest := by
          simp [List.filter_cons, hcw]
        rw [hf]
        exact (filter_bne_of_not_mem hirest).symm
    · have hci2 : (c.id == i) = false := by simp [hci]
      have he : List.eraseP (fun c2 => c2.id == i) (c :: rest)
          = c :: List.eraseP (fun c2 => c2.id == i) rest := by
        simp [List.eraseP_cons, hci2]
      rw [he]
      by_cases hcw : c.isWidget = true
      · have hf1 : List.filter (fun c2 => c2.isWidget)
            (c :: List.eraseP (fun c2 => c2.id == i) rest)
            = c :: List.filter (fun c2 => c2.isWidget)
                (List.eraseP (fun c2 => c2.id == i) rest) := by
          simp [List.filter_cons, hcw]
        have hf2 : List.filter (fun c2 => c2.isWidget) (c :: rest)
            = c :: List.filter (fun c2 => c2.isWidget) rest := by
          simp [List.filter_cons, hcw]
        have hci3 : (c.id != i) = true := by simp [hci]
        rw [hf1, hf2, List.map_cons, List.map_cons]
        simp only [List.filter_cons, hci3, if_true]
        rw [ih hndrest]
      · have hf1 : List.filter (fun c2 => c2.isWidget)
            (c :: List.eraseP (fun c2 => c2.id == i) rest)
            = List.filter (fun c2 => c2.isWidget)
                (List.eraseP (fun c2 => c2.id == i) rest) := by
          simp [List.filter_cons, hcw]
        have hf2 : List.filter (fun c2 => c2.isWidget) (c :: rest)
            = List.filter (fun c2 => c2.isWidget) rest := by
          simp [List.filter_cons, hcw]
        rw [hf1, hf2]
        exact ih hndrest

theorem add_widget_keeps_inv {s : WidgetState} {i : Nat} (hinv : cacheInv s) :
    cacheInv (add_widget s (some i)) := by
  simp only [cacheInv, add_widget, add_child] at hinv ⊢
  simp [List.filter_append, List.map_append, hinv]

theorem add_object_keeps_inv {s : WidgetState} {i : Nat} (hinv : cacheInv s) :
    cacheInv (add_child s ⟨i, false⟩) := by
  simp only [cacheInv, add_child] at hinv ⊢
  simp [List.filter_append, hinv]

theorem remove_child_keeps_inv {s : WidgetState} {i : Nat} (hinv : cacheInv s)
    (hnd : (s.children.map (fun c => c.id)).Nodup) :
    cacheInv (remove_child s i) := by
  unfold remove_child
  cases hf : s.children.find? (fun c => c.id == i) with
  | none => exact hinv
  | some c =>
    have hcmem : c ∈ s.children := List.mem_of_find?_eq_some hf
    have hcid : c.id = i := by simpa using List.find?_some hf
    by_cases hcw : c.isWidget
    · simp only [cacheInv, hcw, if_true]
      rw [hinv, eraseP_filter_map i s.children hnd]
    · simp only [cacheInv, hcw, if_false]
      rw [hinv, eraseP_filter_map i s.children hnd]
      symm
      apply filter_bne_of_not_mem
      intro hmem
      obtain ⟨c2, hc2, hid2⟩ := List.mem_map.mp hmem
      obtain ⟨hc2mem, hc2w⟩ := List.mem_filter.mp hc2
      have : c2 = c := List.inj_on_of_nodup_map hnd hc2mem hcmem (by rw [hid2, hcid])
      rw [this] at hc2w
      exact hcw (by simpa using hc2w)

theorem reach_nodup {s : WidgetState} (h : Reach s) :
    (s.children.map (fun c => c.id)).Nodup := by
  induction h with
  | init nm pos sz => simp
  | add_widget_null hr ih => exact ih
  | add_widget_some i hr hfresh ih =>
    simp only [add_widget, add_child, List.map_append, List.map_cons, List.map_nil]
    rw [List.nodup_append]
    refine ⟨ih, List.nodup_singleton i, ?_⟩
    intro a ha hb
    rw [List.mem_singleton] at hb
    subst hb
    obtain ⟨c, hc, hid⟩ := List.mem_map.mp ha
    exact hfresh c hc hid
  | add_object i hr hfresh ih =>
    simp only [add_child, List.map_append, List.map_cons, List.map_nil]
    rw [List.nodup_append]
    refine ⟨ih, List.nodup_singleton i, ?_⟩
    intro a ha hb
    rw [List.mem_singleton] at hb
    subst hb
    obtain ⟨c, hc, hid⟩ := List.mem_map.mp ha
    exact hfresh c hc hid
  | remove i hr ih =>
    unfold remove_child
    split
    · exact ih
    · exact ih.sublist (List.Sublist.map _ (List.eraseP_sublist _))
  | set_pos p hr ih => exact ih
  | set_sz q hr ih => exact ih

theorem reach_cacheInv {s : WidgetState} (h : Reach s) : cacheInv s := by
  induction h with
  | init nm pos sz => rfl
  | add_widget_null hr ih => exact ih
  | add_widget_some i hr hfresh ih => exact add_widget_keeps_inv ih
  | add_object i hr hfresh ih => exact add_object_keeps_inv ih
  | remove i hr ih => exact remove_child_keeps_inv ih (reach_nodup hr)
  | set_pos p hr ih => exact ih
  | set_sz q hr ih => exact ih

/-! Claim theorems: ownership layer. -/

/-- Claim C1, amended: after every sequence of operations in which
widget-typed children are attached through `add_widget` (non-widget `Object`
children may be attached through the base `add_child`, and any child may be
removed), `children_widget()` is exactly the subsequence of `children()` whose
elements are widget-typed, in the same relative order. Attaching a `Widget`
through the base `add_child` breaks the invariant, because the source's
constructor registers an `on_child_removed` observer only — nothing adds a
cache entry on the generic attach path (see the counterexample). -/
theorem claim_C1 (s : WidgetState) (h : Reach s) : cacheInv s :=
  reach_cacheInv h

/-- Witness for C1: attach widget 1 via `add_widget`, a plain object 2 via
`add_child`, then remove child 1; the cache invariant holds. -/
theorem claim_C1_witness :
    cacheInv (remove_child
      (add_child (add_widget (WidgetState.mk "p" ⟨0, 0⟩ ⟨0, 0⟩ [] []) (some 1))
        ⟨2, false⟩) 1) :=
  claim_C1 _ (Reach.remove 1
    (Reach.add_object 2
      (Reach.add_widget_some 1 (Reach.init "p" ⟨0, 0⟩ ⟨0, 0⟩) (by decide))
      (by decide)))

/-- Counterexample to C1 as stated: attaching a widget-typed child through the
base `add_child` leaves the cache empty while `children()` holds a
widget-typed element, so the cache is not the widget-typed subsequence of the
child list. -/
theorem claim_C1_counterexample :
    ¬ cacheInv (add_child (WidgetState.mk "p" ⟨0, 0⟩ ⟨0, 0⟩ [] []) ⟨0, true⟩) := by
  unfold cacheInv
  decide

/-- Claim C6: the `remove()` contract. On a well-formed state, `remove()`
returns a null handle, mutates nothing and fires nothing exactly when the node
has no parent; with a parent it returns ownership of the node, clears the
node's parent back-reference, removes the node from the former parent's child
list (whose length decreases by one), and fires `on_child_removed` once, while
the node was still attached. -/
theorem claim_C6 (n : Nat) (s : RemState) (hwf : remWF n s) :
    ((object_remove n s).handle = none ∧ (object_remove n s).state = s
        ∧ (object_remove n s).fired = [] ↔ s.nodeParent = none)
    ∧ (s.nodeParent ≠ none →
        (object_remove n s).handle = some n
        ∧ (object_remove n s).state.nodeParent = none
        ∧ n ∉ (object_remove n s).state.parentChildren
        ∧ (object_remove n s).state.parentChildren.length + 1 = s.parentChildren.length
        ∧ (object_remove n s).fired = [(n, true)]) := by
  obtain ⟨hiff, hnd⟩ := hwf
  cases hp : s.nodeParent with
  | none =>
    constructor
    · simp [object_remove, hp]
    · intro hcontra
      exact absurd rfl hcontra
  | some pid =>
    have hmem : n ∈ s.parentChildren := hiff.mp (by simp [hp])
    constructor
    · constructor
      · rintro ⟨h1, -, -⟩
        simp [object_remove, hp] at h1
      · intro hnone
        exact Option.noConfusion hnone
    · intro _
      refine ⟨by simp [object_remove, hp], by simp [object_remove, hp], ?_, ?_, ?_⟩
      · simp only [object_remove, hp]
        intro hmem2
        exact ((hnd.mem_erase_iff).mp hmem2).1 rfl
      · simp only [object_remove, hp]
        have hlen := List.length_erase_of_mem hmem
        have hpos : s.parentChildren ≠ [] := by
          intro he; rw [he] at hmem; simp at hmem
        have : 0 < s.parentChildren.length := List.length_pos.mpr hpos
        omega
      · simp [object_remove, hp, hmem]

/-- Witness for C6: removing node 2 from a parent with children 1, 2, 3. -/
theorem claim_C6_witness :
    (object_remove 2 ⟨[1, 2, 3], some 0⟩).handle = some 2
    ∧ (object_remove 2 ⟨[1, 2, 3], some 0⟩).state.nodeParent = none
    ∧ 2 ∉ (object_remove 2 ⟨[1, 2, 3], some 0⟩).state.parentChildren
    ∧ (object_remove 2 ⟨[1, 2, 3], some 0⟩).state.parentChildren.length + 1
        = ([1, 2, 3] : List Nat).length
    ∧ (object_remove 2 ⟨[1, 2, 3], some 0⟩).fired = [(2, true)] :=
  (claim_C6 2 ⟨[1, 2, 3], some 0⟩ (by constructor <;> decide)).2 (by decide)

/-- Claim C7: passing a null owned-handle to `add_widget` is a no-op — the
resulting state (children, widget cache, bounding box, name) is exactly the
input state. -/
theorem claim_C7 : ∀ s : WidgetState, add_widget s none = s :=
  fun _ => rfl

/-- Claim C8: accessor frame condition — `set_position` makes `get_position`
return the new value and changes nothing else; `set_size` makes `get_size`
return the new value and changes nothing else. -/
theorem claim_C8 : ∀ (s : WidgetState) (p q : Vec2),
    get_position (set_position s p) = p
    ∧ (set_position s p).size = s.size
    ∧ (set_position s p).children = s.children
    ∧ (set_position s p).children_widget = s.children_widget
    ∧ (set_position s p).name = s.name
    ∧ get_size (set_size s q) = q
    ∧ (set_size s q).position = s.position
    ∧ (set_size s q).children = s.children
    ∧ (set_size s q).children_widget = s.children_widget
    ∧ (set_size s q).name = s.name :=
  fun _ _ _ => ⟨rfl, rfl, rfl, rfl, rfl, rfl, rfl, rfl, rfl, rfl⟩

end Druid
